import Mathlib

/-!
Verification of the sensor-stack streaming aggregation pipeline.

This file gives a shallow embedding of the core of the repository —
`src/filter.py` (`FilterType`, `filter_data`), `src/aggregator.py`
(`METRIC_MAPPING`, `normalize_metric_names`, `aggregate_data`,
`merge_aggregates`) and the driver loops of `main.py` — and proves or
refutes the specified properties against that embedding.

Modelling conventions, used throughout:

* 64-bit floats are modelled as exact rationals (`ℚ`).  All arithmetic the
  pipeline performs on the sufficient statistics (sums, weighted means,
  sums of squares, min/max) is exact in this idealisation; the spec's
  floating-point tolerance only blesses rounding noise around these exact
  values.
* The one float operation producing irrational values is the final
  square root inside the standard deviation.  A standard deviation float
  is therefore represented by the rational number whose real square root
  it is: `some v` stands for the float `sqrt v`, and `none` stands for
  `NaN` (pandas yields `NaN` for `std` of a single observation with
  `ddof = 1`, and `np.sqrt` yields `NaN` on a negative radicand).  All
  radicands produced by the code are nonnegative, so equality of
  representations coincides with equality of the represented floats.
* A pandas `DataFrame` of sensor readings is a `List Row` over the fixed
  input schema `time, site, device, metric, value, unit` (the schema of
  every frame `main.py` ever passes to the core).  Timestamps are modelled
  as integers (UTC epoch instants); only their ordering matters.
* Python exceptions are modelled with `Except PyErr`.
-/

/-- One input row of the sensor data file (the fixed schema produced by
`chunk_reader` in `main.py`: `time, site, device, metric, value, unit`). -/
structure Row where
  time : Int
  site : String
  device : String
  metric : String
  value : ℚ
  unit : String
deriving DecidableEq, Repr

/-- The Python exceptions the embedded code can raise:
`ValueError("Filter key ... not found in data")` from `filter_data`, and the
`AttributeError` raised by `None.sort_values` in `main` when no chunk ever
contributed data. -/
inductive PyErr where
  | valueErrorUnknownColumn
  | attributeErrorNoneSortValues
deriving DecidableEq, Repr

/-- The column names of every data frame fed to `filter_data` by `main.py`
(`data.columns`). -/
def colNames : List String := ["time", "site", "device", "metric", "value", "unit"]

/-- The operand of a `FilterType`: `main.py` builds either plain strings
(site/device/metric) or `pd.Timestamp` values (time bounds). -/
inductive Operand where
  | str (s : String)
  | ts (t : Int)
deriving DecidableEq, Repr

/-- The comparison operator carried in `FilterType.compare_str`
(`==`, `!=`, `<`, `<=`, `>`, `>=`).  The constructor defaults it to `==`,
so it is never `None` and the dead `compare_str is None` branch of
`filter_data` is unreachable. -/
inductive CmpOp where
  | eq | ne | lt | le | gt | ge
deriving DecidableEq, Repr

/-- `FilterType` from `src/filter.py`: a key, a comparison operator and an
operand. -/
structure FilterType where
  key : String
  op : CmpOp
  operand : Operand
deriving DecidableEq, Repr

/-- Interpretation of a comparison operator between two strings (pandas
string comparison is exact and case-sensitive; the order is
lexicographic). -/
def strCmp (o : CmpOp) (v s : String) : Bool :=
  match o with
  | .eq => v = s
  | .ne => v ≠ s
  | .lt => v < s
  | .le => v ≤ s
  | .gt => s < v
  | .ge => s ≤ v

/-- Interpretation of a comparison operator between two timestamps. -/
def intCmp (o : CmpOp) (v t : Int) : Bool :=
  match o with
  | .eq => v = t
  | .ne => v ≠ t
  | .lt => v < t
  | .le => v ≤ t
  | .gt => t < v
  | .ge => t ≤ v

/-- The string-valued columns of the schema (everything `main.py` filters
with a string operand). -/
def getStrCol (r : Row) : String → Option String
  | "site" => some r.site
  | "device" => some r.device
  | "metric" => some r.metric
  | "unit" => some r.unit
  | _ => none

/-- A condition of the compiled query string built by `filter_data`: a
string operand is inlined into the query text (`key == "value"`), while a
`Timestamp` operand is referenced through the `@filter_<key>` local
variable looked up in `query_locals` at evaluation time. -/
inductive CompiledVal where
  | lit (s : String)
  | var (name : String)
deriving DecidableEq, Repr

/-- One conjunct of the compiled query string. -/
structure CompiledCond where
  key : String
  op : CmpOp
  val : CompiledVal
deriving DecidableEq, Repr

/-- Assignment into the `query_locals` dict: overwrites an existing binding
for the same name (Python dict assignment). -/
def setLocal (l : List (String × Int)) (k : String) (v : Int) : List (String × Int) :=
  (k, v) :: l.filter (fun p => p.1 ≠ k)

/-- Lookup in the `query_locals` dict. -/
def lookupLocal : List (String × Int) → String → Option Int
  | [], _ => none
  | p :: l, k => if p.1 = k then some p.2 else lookupLocal l k

/-- The condition-building loop of `filter_data`: walks the filter list in
order, raising `ValueError` on the first filter whose key is not a column,
and otherwise compiling each condition.  A `Timestamp` operand is stored in
`query_locals` under the name `filter_<key>` — so a later `Timestamp`
condition on the same key silently overwrites the value of an earlier one,
since both compile to the same `@filter_<key>` reference.  `buildStep`
processes one filter; `buildQuery` folds it over the list. -/
def buildStep (acc : List CompiledCond × List (String × Int)) (c : FilterType) :
    Except PyErr (List CompiledCond × List (String × Int)) :=
  if c.key ∈ colNames then
    match c.operand with
    | .str s => Except.ok (acc.1 ++ [⟨c.key, c.op, .lit s⟩], acc.2)
    | .ts t =>
        Except.ok (acc.1 ++ [⟨c.key, c.op, .var ("filter_" ++ c.key)⟩],
          setLocal acc.2 ("filter_" ++ c.key) t)
  else Except.error .valueErrorUnknownColumn

/-- The full condition-building loop (see `buildStep`). -/
def buildQuery (conds : List FilterType) :
    Except PyErr (List CompiledCond × List (String × Int)) :=
  conds.foldlM buildStep ([], [])

/-- Evaluation of one compiled conjunct against a row, with the final
`query_locals`.  String literals compare against string columns
(exact, case-sensitive); `@filter_<key>` references resolve to the stored
timestamp and compare against the `time` column.  A type-mismatched
comparison (never produced by `main.py`) evaluates to `false`. -/
def evalCond (locals : List (String × Int)) (r : Row) (c : CompiledCond) : Bool :=
  match c.val with
  | .lit s =>
      match getStrCol r c.key with
      | some v => strCmp c.op v s
      | none => false
  | .var nm =>
      match lookupLocal locals nm with
      | some t => if c.key = "time" then intCmp c.op r.time t else false
      | none => false

/-- `filter_data` from `src/filter.py`: returns the batch unchanged when the
filter list is empty; otherwise compiles all conditions (raising
`ValueError` on an unknown column before any row is examined), joins them
with `&` and keeps exactly the rows on which every conjunct evaluates to
`True` under the final `query_locals`. -/
def filter_data (rows : List Row) (conds : List FilterType) :
    Except PyErr (List Row) :=
  if conds.isEmpty then Except.ok rows
  else do
    let built ← buildQuery conds
    Except.ok (rows.filter (fun r => built.1.all (evalCond built.2 r)))

/-- `METRIC_MAPPING` from `src/aggregator.py`. -/
def METRIC_MAPPING : List (String × String) :=
  [("temp", "temperature"), ("hum", "humidity"), ("press", "pressure")]

/-- Lookup in a Python string-to-string dict. -/
def dictGet : List (String × String) → String → Option String
  | [], _ => none
  | p :: l, k => if p.1 = k then some p.2 else dictGet l k

/-- `METRIC_MAPPING.get(x, x)`: the mapped name when `x` is a key of the
mapping, otherwise `x` itself. -/
def mapMetric (x : String) : String :=
  (dictGet METRIC_MAPPING x).getD x

/-- `normalize_metric_names` from `src/aggregator.py`, on the fixed schema:
the `metric` column is always present (so the early-return branch for a
missing column is unreachable), the categorical-to-string cast is the
identity in this model, and each metric name is sent through
`METRIC_MAPPING.get(x, x)`. -/
def normalize_metric_names (rows : List Row) : List Row :=
  rows.map (fun r => { r with metric := mapMetric r.metric })

/-- A grouping key: the tuple of the `group_by` columns, which `main.py`
always instantiates as `["site", "device", "metric"]`. -/
abbrev Key : Type := String × String × String

/-- The grouping key of a row. -/
def rowKey (r : Row) : Key := (r.site, r.device, r.metric)

/-- One row of an aggregated frame: the columns `aggregate_data` produces
and `merge_aggregates` preserves.  `value_std` uses the radicand
representation of a float described at the top of the file (`some v` is
the float `sqrt v`, `none` is `NaN`). -/
structure Agg where
  value_count : Nat
  value_mean : ℚ
  value_min : ℚ
  value_max : ℚ
  value_sum_sq : ℚ
  value_std : Option ℚ
deriving DecidableEq, Repr

/-- Minimum of a list of rationals (only ever applied to the nonempty value
list of an observed group; the empty case is an arbitrary default). -/
def listMin : List ℚ → ℚ
  | [] => 0
  | x :: xs => xs.foldl min x

/-- Maximum of a list of rationals (only ever applied to the nonempty value
list of an observed group). -/
def listMax : List ℚ → ℚ
  | [] => 0
  | x :: xs => xs.foldl max x

/-- Sum of a list of rationals. -/
def listSum (l : List ℚ) : ℚ := l.foldr (· + ·) 0

/-- The named aggregations `aggregate_data` computes for the value list of
one group: `count`, `mean`, `min`, `max`, `std` (pandas sample standard
deviation, `ddof = 1`, which is `NaN` for a single observation) and
`sum_of_squares` (`(x ** 2).sum()`).  The group is nonempty by
construction, so `n ≥ 1` and the divisions are well-defined; for `n ≥ 2`
the pandas standard deviation is `sqrt (Σ (x − mean)² / (n − 1))`, stored
here as its radicand. -/
def groupStats (vs : List ℚ) : Agg :=
  let n : ℕ := vs.length
  let m : ℚ := listSum vs / n
  { value_count := n
    value_mean := m
    value_min := listMin vs
    value_max := listMax vs
    value_sum_sq := listSum (vs.map (fun v => v ^ 2))
    value_std :=
      if n ≤ 1 then none
      else some (listSum (vs.map (fun v => (v - m) ^ 2)) / ((n : ℚ) - 1)) }

/-- `aggregate_data` from `src/aggregator.py`, at the grouping
`["site", "device", "metric"]` used everywhere in `main.py`: one output row
per observed group key, carrying the statistics of that group's value
list.  (`groupby(..., observed=True)` emits the observed groups in sorted
key order; this embedding lists them in some duplicate-free order
instead — every statement below accesses aggregates by key lookup, so the
row order is immaterial, and `main` re-sorts the final frame anyway.) -/
def aggregate_data (rows : List Row) : List (Key × Agg) :=
  ((rows.map rowKey).dedup).map
    (fun k => (k, groupStats ((rows.filter (fun r => rowKey r = k)).map Row.value)))

/-- Key lookup in an aggregated frame (the row a pandas merge on the group
key columns pairs up; aggregated frames have one row per key). -/
def lookupA : List (Key × Agg) → Key → Option Agg
  | [], _ => none
  | p :: l, k => if p.1 = k then some p.2 else lookupA l k

/-- The statistics row an absent group contributes after
`merge_aggregates`' outer merge: every numeric column of the missing side
is `NaN` and is immediately overwritten with `0` by the
`fillna(0)` loop (all six statistic columns have float/int dtype). -/
def zeroAgg : Agg :=
  { value_count := 0, value_mean := 0, value_min := 0, value_max := 0
    value_sum_sq := 0, value_std := some 0 }

/-- The column arithmetic of `merge_aggregates` on one merged row, after
the `fillna(0)` pass: counts add; the mean is the count-weighted
combination, overwritten with `0` where the total count is `0`
(`merged.loc[total_count == 0, 'value_mean'] = 0`); `min`/`max` combine
the two sides' (already filled) values; sums of squares add; and the
standard deviation is recomputed as
`np.sqrt((value_sum_sq − count·mean²) / np.maximum(count − 1, 1))` —
`np.sqrt` of a negative radicand is `NaN` (`none`); there is no clamp of
the radicand at `0`.  (`np.maximum(total_count - 1, 1)` computes on floats,
so `0 − 1 = −1` is clamped to `1`, which truncated `Nat` subtraction
reproduces.)  The incoming `value_std_1`/`value_std_2` columns are dropped
unread. -/
def combine (x y : Agg) : Agg :=
  let n : ℕ := x.value_count + y.value_count
  let m : ℚ :=
    if n = 0 then 0
    else ((x.value_count : ℚ) * x.value_mean + (y.value_count : ℚ) * y.value_mean) / (n : ℚ)
  let ssq : ℚ := x.value_sum_sq + y.value_sum_sq
  let radicand : ℚ := (ssq - (n : ℚ) * m ^ 2) / ((max (n - 1) 1 : ℕ) : ℚ)
  { value_count := n
    value_mean := m
    value_min := min x.value_min y.value_min
    value_max := max x.value_max y.value_max
    value_sum_sq := ssq
    value_std := if radicand < 0 then none else some radicand }

/-- `merge_aggregates` from `src/aggregator.py`: an outer merge of the two
aggregated frames on the group-key columns (the categorical-to-string cast
at the top is the identity in this model), followed by the `fillna(0)`
pass and the per-row column arithmetic of `combine`.  A key present in
both frames pairs its two rows; a key present in one frame only gets the
`fillna`-zeroed `zeroAgg` for its missing side; `mergeRow` is the row a
key of the left frame contributes. -/
def mergeRow (b : List (Key × Agg)) (p : Key × Agg) : Key × Agg :=
  (p.1, match lookupA b p.1 with
        | some y => combine p.2 y
        | none => combine p.2 zeroAgg)

def merge_aggregates (a b : List (Key × Agg)) : List (Key × Agg) :=
  a.map (mergeRow b)
  ++ (b.filter (fun p => (lookupA a p.1).isNone)).map
      (fun p => (p.1, combine zeroAgg p.2))

/-- The first streaming pass of `main` in `main.py`: for each chunk in
order, filter it; a chunk with no surviving rows is skipped (`continue`);
otherwise normalize metric names, aggregate the chunk, and either adopt
the chunk aggregate (first contributing chunk) or merge it into the
running aggregate.  After the loop, `main` unconditionally executes
`agg_data = agg_data.sort_values(by=["site", "device", "metric"])`: when
no chunk ever contributed data `agg_data` is still `None`, and the
attribute access on `None` raises `AttributeError` — before the
`if agg_data is None or len(agg_data) == 0` guard below it can run.  The
sort only permutes the rows of a data frame, and no statement below
depends on row order, so on a non-`None` aggregate it is modelled as the
identity. -/
def runMainAgg (chunks : List (List Row)) (conds : List FilterType) :
    Except PyErr (List (Key × Agg)) := do
  let aggData ← chunks.foldlM
    (fun (acc : Option (List (Key × Agg))) chunk => do
      let filtered ← filter_data chunk conds
      if filtered.isEmpty then pure acc
      else
        let aggChunk := aggregate_data (normalize_metric_names filtered)
        pure (some (match acc with
                    | none => aggChunk
                    | some a => merge_aggregates a aggChunk)))
    none
  match aggData with
  | none => Except.error .attributeErrorNoneSortValues
  | some a => Except.ok a

/-- The outlier mask of `main`'s second pass on one joined row, in the
radicand representation: the float test is
`abs(value − mean) > 3 * std` with `std = sqrt q`; since both sides are
nonnegative this holds exactly when `(value − mean)² > 9 q`, and any
comparison against a `NaN` standard deviation is `False`. -/
def outlierPred (v m : ℚ) (s : Option ℚ) : Bool :=
  match s with
  | none => false
  | some q => (v - m) ^ 2 > 9 * q

/-- The per-chunk body of `main`'s outlier pass after filtering and
normalization: the inner merge with the final aggregate on the group-key
columns keeps exactly the rows whose key has an aggregate row (the final
aggregate has one row per key), and the mask then keeps the rows deviating
from their group mean by strictly more than three standard deviations. -/
def outlierScanChunk (agg : List (Key × Agg)) (rows : List Row) : List Row :=
  rows.filterMap (fun r =>
    match lookupA agg (rowKey r) with
    | some a => if outlierPred r.value a.value_mean a.value_std then some r else none
    | none => none)

/-- The second streaming pass of `main`: re-reads the chunks, re-applies
the same filter and normalization, joins each surviving chunk against the
final aggregate and collects the flagged rows in order (appending an empty
outlier chunk is skipped in the source, which accumulates the same
list). -/
def scanStep (agg : List (Key × Agg)) (conds : List FilterType)
    (acc : List Row) (chunk : List Row) : Except PyErr (List Row) := do
  let filtered ← filter_data chunk conds
  if filtered.isEmpty then pure acc
  else pure (acc ++ outlierScanChunk agg (normalize_metric_names filtered))

/-- The full second streaming pass (see `scanStep`). -/
def outlierScan (agg : List (Key × Agg)) (chunks : List (List Row))
    (conds : List FilterType) : Except PyErr (List Row) :=
  chunks.foldlM (scanStep agg conds) []

/-- Boolean well-formedness of the standard-deviation columns of an
aggregated frame: every non-`NaN` standard deviation has a nonnegative
radicand (true of every frame the pipeline produces, since `np.sqrt`
returns `NaN` on negative input and the pandas variance is a sum of
squares). -/
def stdWF (agg : List (Key × Agg)) : Bool :=
  agg.all (fun p => 0 ≤ p.2.value_std.getD 0)

/-- C1: the claim states that merging the chunk aggregates of any split
equals aggregating the union of the raw rows, for every group and
statistic.  The code refutes this: for the two one-row chunks
`A = [(site s, device d, metric m, value 5)]` and
`B = [(site s2, device d, metric m, value 1)]`, the group `(s, d, m)` is
present in only one chunk, so the outer merge leaves the other side's
statistics `NaN` and `fillna(0)` turns them into `0`; the merged minimum
becomes `min 5 0 = 0` while aggregating the union directly gives `5` (the
merged standard deviation is also `0` where direct aggregation gives
`NaN`).  Hence the final aggregate depends on the chunk split, which also
contradicts the repository's own `tests/module_test.py` chunk-consistency
test. -/
theorem c1_merge_of_chunks_differs_from_aggregate_of_union :
    lookupA
      (merge_aggregates
        (aggregate_data [⟨0, "s", "d", "m", 5, "u"⟩])
        (aggregate_data [⟨0, "s2", "d", "m", 1, "u"⟩]))
      ("s", "d", "m") = some ⟨1, 5, 0, 5, 25, some 0⟩ ∧
    lookupA (aggregate_data [⟨0, "s", "d", "m", 5, "u"⟩, ⟨0, "s2", "d", "m", 1, "u"⟩])
      ("s", "d", "m") = some ⟨1, 5, 5, 5, 25, none⟩ ∧
    lookupA
      (merge_aggregates
        (aggregate_data [⟨0, "s", "d", "m", 5, "u"⟩])
        (aggregate_data [⟨0, "s2", "d", "m", 1, "u"⟩]))
      ("s", "d", "m") ≠
      lookupA (aggregate_data [⟨0, "s", "d", "m", 5, "u"⟩, ⟨0, "s2", "d", "m", 1, "u"⟩])
        ("s", "d", "m") := by
  simp [aggregate_data, merge_aggregates, mergeRow, lookupA, rowKey, groupStats, combine, zeroAgg,
    listSum, listMin, listMax, List.dedup, List.pwFilter, min_def, max_def]
  norm_num

/-- C2: the claim states that a group present in only one input of
`merge_aggregates` passes through with all statistics unchanged.  The code
refutes this: merging a frame whose only group is `(s, d, m)` with
statistics `(count 1, mean 5, min 5, max 5, sum_sq 25, std NaN)` against a
frame holding only the unrelated group `(x, y, z)` yields, for
`(s, d, m)`, a minimum of `min 5 0 = 0` (the absent side's `NaN` minimum
is replaced by `0` by the `fillna(0)` pass before the row-wise `min`) and
a standard deviation recomputed to `0` — not the unchanged
`(…, min 5, …, std NaN)`. -/
theorem c2_one_sided_group_statistics_changed :
    lookupA
      (merge_aggregates
        [(("s", "d", "m"), ⟨1, 5, 5, 5, 25, none⟩)]
        [(("x", "y", "z"), ⟨1, 1, 1, 1, 1, none⟩)])
      ("s", "d", "m") = some ⟨1, 5, 0, 5, 25, some 0⟩ ∧
    some (⟨1, 5, 0, 5, 25, some 0⟩ : Agg) ≠ some (⟨1, 5, 5, 5, 25, none⟩ : Agg) := by
  simp [aggregate_data, merge_aggregates, mergeRow, lookupA, rowKey, groupStats, combine, zeroAgg,
    listSum, listMin, listMax, List.dedup, List.pwFilter, min_def, max_def]
  norm_num

/-- C3: the claim states that when every filtered chunk is empty the
driver terminates in a clean empty-result state without raising.  The code
refutes this: with one chunk whose single row fails the `site` filter, the
running aggregate is still `None` after the loop, and
`agg_data.sort_values(...)` — executed before the
`if agg_data is None or len(agg_data) == 0` guard — raises
`AttributeError` on `None`. -/
theorem c3_all_chunks_filtered_out_raises :
    runMainAgg [[⟨0, "s", "d", "m", 5, "u"⟩]] [⟨"site", .eq, .str "elsewhere"⟩] =
      Except.error .attributeErrorNoneSortValues := by
  simp [runMainAgg, filter_data, buildQuery, buildStep, setLocal, lookupLocal, evalCond, strCmp, intCmp,
    getStrCol, colNames, List.foldlM, Bind.bind, Pure.pure, Except.bind, Except.pure,
    aggregate_data, merge_aggregates, mergeRow, lookupA, rowKey, groupStats, combine, zeroAgg,
    listSum, listMin, listMax, List.dedup, List.pwFilter, min_def, max_def]

/-- C4: the claim states that a group with exactly one contributing row
has `std = 0`, not `NaN`.  The code refutes this: `aggregate_data` computes
`std` with the pandas aggregation `('value', 'std')`, the sample standard
deviation with `ddof = 1`, which is `NaN` (modelled as `none`) for a
single observation — not the defined value `0` (`some 0`). -/
theorem c4_single_row_group_std_is_nan :
    (lookupA (aggregate_data [⟨0, "s", "d", "m", 7, "u"⟩]) ("s", "d", "m")).map
        Agg.value_std = some none ∧
    (none : Option ℚ) ≠ some 0 := by
  simp [aggregate_data, merge_aggregates, mergeRow, lookupA, rowKey, groupStats, combine, zeroAgg,
    listSum, listMin, listMax, List.dedup, List.pwFilter, min_def, max_def]

/-- C7: the claim states that `filter_data` returns exactly the rows
satisfying the conjunction of the conditions.  The code refutes this on
the spec's own §8 scenario: ten rows with timestamps `1, …, 10` filtered
by `time >= 3` and `time <= 7` should keep the five rows `3, …, 7`, but
both `Timestamp` conditions compile to the same query variable
`@filter_time` and the second assignment to `query_locals["filter_time"]`
overwrites the first, so the executed query is
`time >= @filter_time & time <= @filter_time` with the variable bound to
`7` — keeping only the single row with timestamp `7`. -/
theorem c7_time_range_filter_collapses_to_upper_bound :
    filter_data
      [⟨1, "s", "d", "m", 0, "u"⟩, ⟨2, "s", "d", "m", 0, "u"⟩, ⟨3, "s", "d", "m", 0, "u"⟩,
        ⟨4, "s", "d", "m", 0, "u"⟩, ⟨5, "s", "d", "m", 0, "u"⟩, ⟨6, "s", "d", "m", 0, "u"⟩,
        ⟨7, "s", "d", "m", 0, "u"⟩, ⟨8, "s", "d", "m", 0, "u"⟩, ⟨9, "s", "d", "m", 0, "u"⟩,
        ⟨10, "s", "d", "m", 0, "u"⟩]
      [⟨"time", .ge, .ts 3⟩, ⟨"time", .le, .ts 7⟩] =
      Except.ok [⟨7, "s", "d", "m", 0, "u"⟩] := by
  simp [filter_data, buildQuery, buildStep, setLocal, lookupLocal, evalCond, strCmp, intCmp,
    getStrCol, colNames, List.foldlM, Bind.bind, Pure.pure, Except.bind, Except.pure]

/-- `METRIC_MAPPING.get` maps the three abbreviated names and fixes every
other string. -/
theorem mapMetric_eq (x : String) :
    mapMetric x =
      if x = "temp" then "temperature"
      else if x = "hum" then "humidity"
      else if x = "press" then "pressure" else x := by
  by_cases h1 : x = "temp"
  · subst h1; simp [mapMetric, dictGet, METRIC_MAPPING]
  · by_cases h2 : x = "hum"
    · subst h2; simp [mapMetric, dictGet, METRIC_MAPPING]
    · by_cases h3 : x = "press"
      · subst h3; simp [mapMetric, dictGet, METRIC_MAPPING]
      · simp [mapMetric, dictGet, METRIC_MAPPING, h1, h2, h3, Ne.symm h1, Ne.symm h2,
          Ne.symm h3]

/-- No value of `METRIC_MAPPING` is itself a key of the mapping, so one
application of the lookup is a fixed point of a second one. -/
theorem mapMetric_idem (x : String) : mapMetric (mapMetric x) = mapMetric x := by
  rw [mapMetric_eq x]
  by_cases h1 : x = "temp"
  · simp [h1, mapMetric_eq]
  · by_cases h2 : x = "hum"
    · simp [h1, h2, mapMetric_eq]
    · by_cases h3 : x = "press"
      · simp [h1, h2, h3, mapMetric_eq]
      · simp [h1, h2, h3, mapMetric_eq]

/-- C9: the metric normalizer is idempotent — applying
`normalize_metric_names` twice yields the same frame as applying it once,
because no value of `METRIC_MAPPING`'s range (`temperature`, `humidity`,
`pressure`) is itself a mapped key, so `METRIC_MAPPING.get(x, x)` fixes
every already-normalized name. -/
theorem c9_normalize_metric_names_idempotent (rows : List Row) :
    normalize_metric_names (normalize_metric_names rows) = normalize_metric_names rows := by
  unfold normalize_metric_names
  rw [List.map_map]
  congr 1
  funext r
  simp [Function.comp, mapMetric_idem]

/-- The condition-building loop fails (necessarily with the
unknown-column `ValueError`) exactly when some filter in the list names a
key outside the schema — independently of the accumulator it starts
from. -/
theorem buildFold_error_iff (conds : List FilterType)
    (acc : List CompiledCond × List (String × Int)) :
    conds.foldlM buildStep acc = Except.error PyErr.valueErrorUnknownColumn ↔
      ∃ c ∈ conds, c.key ∉ colNames := by
  induction conds generalizing acc with
  | nil => simp [List.foldlM, Pure.pure, Except.pure]
  | cons c cs ih =>
    by_cases hk : c.key ∈ colNames
    · cases hop : c.operand with
      | str s =>
          simp [List.foldlM_cons, buildStep, hk, hop, Bind.bind, Except.bind, ih]
      | ts t =>
          simp [List.foldlM_cons, buildStep, hk, hop, Bind.bind, Except.bind, ih]
    · simp [List.foldlM_cons, buildStep, hk, Bind.bind, Except.bind]

/-- C8: `filter_data` fails with the unknown-column `ValueError` if and
only if some condition of a non-empty condition list references a column
outside the batch's schema.  The right-hand side does not mention the rows
at all: the error is decided (and raised) in the condition-building loop,
before any row is filtered, so a failing run aborts without producing a
filtering result. -/
theorem c8_unknown_column_error_iff (rows : List Row) (conds : List FilterType) :
    filter_data rows conds = Except.error PyErr.valueErrorUnknownColumn ↔
      ∃ c ∈ conds, c.key ∉ colNames := by
  by_cases he : conds.isEmpty
  · have hnil : conds = [] := by simpa [List.isEmpty_iff] using he
    subst hnil
    simp [filter_data]
  · rw [show (filter_data rows conds = Except.error PyErr.valueErrorUnknownColumn) ↔
        (buildQuery conds = Except.error PyErr.valueErrorUnknownColumn) from ?_,
      buildQuery, buildFold_error_iff]
    cases hb : buildQuery conds with
    | ok res => simp [filter_data, he, hb, Bind.bind, Except.bind]
    | error e => simp [filter_data, he, hb, Bind.bind, Except.bind]

/-- A successful key lookup in an aggregated frame returns a pair of the
frame. -/
theorem lookupA_some_mem {l : List (Key × Agg)} {k : Key} {a : Agg}
    (h : lookupA l k = some a) : (k, a) ∈ l := by
  induction l with
  | nil => simp [lookupA] at h
  | cons p t ih =>
    obtain ⟨k0, a0⟩ := p
    by_cases hp : k0 = k
    · subst hp
      rw [lookupA, if_pos rfl] at h
      obtain rfl : a0 = a := by simpa using h
      exact List.mem_cons_self _ _
    · rw [lookupA, if_neg hp] at h
      exact List.mem_cons_of_mem _ (ih h)

/-- A left fold of `min` is a lower bound of its seed and of every element
folded over. -/
theorem foldl_min_le (xs : List ℚ) (x : ℚ) :
    ∀ v ∈ x :: xs, xs.foldl min x ≤ v := by
  induction xs generalizing x with
  | nil => simp
  | cons y ys ih =>
    intro v hv
    have hfold : (y :: ys).foldl min x = ys.foldl min (min x y) := rfl
    have hseed : ys.foldl min (min x y) ≤ min x y :=
      ih (min x y) (min x y) (List.mem_cons_self _ _)
    rcases List.mem_cons.mp hv with hv | hv
    · subst hv
      exact hfold ▸ le_trans hseed (min_le_left _ _)
    · rcases List.mem_cons.mp hv with hv | hv
      · subst hv
        exact hfold ▸ le_trans hseed (min_le_right _ _)
      · exact hfold ▸ ih (min x y) v (List.mem_cons_of_mem _ hv)

/-- A left fold of `max` is an upper bound of its seed and of every
element folded over. -/
theorem le_foldl_max (xs : List ℚ) (x : ℚ) :
    ∀ v ∈ x :: xs, v ≤ xs.foldl max x := by
  induction xs generalizing x with
  | nil => simp
  | cons y ys ih =>
    intro v hv
    have hfold : (y :: ys).foldl max x = ys.foldl max (max x y) := rfl
    have hseed : max x y ≤ ys.foldl max (max x y) :=
      ih (max x y) (max x y) (List.mem_cons_self _ _)
    rcases List.mem_cons.mp hv with hv | hv
    · subst hv
      exact hfold ▸ le_trans (le_max_left _ _) hseed
    · rcases List.mem_cons.mp hv with hv | hv
      · subst hv
        exact hfold ▸ le_trans (le_max_right _ _) hseed
      · exact hfold ▸ ih (max x y) v (List.mem_cons_of_mem _ hv)

/-- A pointwise lower bound on a list bounds its sum from below by
`length` times the bound. -/
theorem le_listSum (l : List ℚ) (c : ℚ) (h : ∀ v ∈ l, c ≤ v) :
    (l.length : ℚ) * c ≤ listSum l := by
  induction l with
  | nil => simp [listSum]
  | cons x xs ih =>
    have hx : c ≤ x := h x (List.mem_cons_self _ _)
    have hxs : (xs.length : ℚ) * c ≤ listSum xs :=
      ih (fun v hv => h v (List.mem_cons_of_mem _ hv))
    have hsum : listSum (x :: xs) = x + listSum xs := rfl
    have hexp : ((x :: xs).length : ℚ) * c = c + (xs.length : ℚ) * c := by
      rw [List.length_cons]
      push_cast
      ring
    rw [hsum, hexp]
    exact add_le_add hx hxs

/-- A pointwise upper bound on a list bounds its sum from above by
`length` times the bound. -/
theorem listSum_le (l : List ℚ) (c : ℚ) (h : ∀ v ∈ l, v ≤ c) :
    listSum l ≤ (l.length : ℚ) * c := by
  induction l with
  | nil => simp [listSum]
  | cons x xs ih =>
    have hx : x ≤ c := h x (List.mem_cons_self _ _)
    have hxs : listSum xs ≤ (xs.length : ℚ) * c :=
      ih (fun v hv => h v (List.mem_cons_of_mem _ hv))
    have hsum : listSum (x :: xs) = x + listSum xs := rfl
    have hexp : ((x :: xs).length : ℚ) * c = c + (xs.length : ℚ) * c := by
      rw [List.length_cons]
      push_cast
      ring
    rw [hsum, hexp]
    exact add_le_add hx hxs

/-- On a nonempty value list, the statistics of `groupStats` satisfy
`count ≥ 1` and `min ≤ mean ≤ max`. -/
theorem groupStats_bounds (vs : List ℚ) (hv : vs ≠ []) :
    1 ≤ (groupStats vs).value_count ∧
      (groupStats vs).value_min ≤ (groupStats vs).value_mean ∧
      (groupStats vs).value_mean ≤ (groupStats vs).value_max := by
  obtain ⟨x, xs, rfl⟩ := List.exists_cons_of_ne_nil hv
  have hlen : (0 : ℚ) < ((x :: xs).length : ℚ) := by
    have : 0 < (x :: xs).length := by simp
    exact_mod_cast this
  refine ⟨by simp [groupStats], ?_, ?_⟩
  · have hmin : ∀ v ∈ x :: xs, listMin (x :: xs) ≤ v := by
      simpa [listMin] using foldl_min_le xs x
    have hsum := le_listSum (x :: xs) (listMin (x :: xs)) hmin
    have hb : listMin (x :: xs) ≤ listSum (x :: xs) / ((x :: xs).length : ℚ) := by
      rw [le_div_iff₀ hlen]
      linarith [hsum]
    simpa [groupStats] using hb
  · have hmax : ∀ v ∈ x :: xs, v ≤ listMax (x :: xs) := by
      simpa [listMax] using le_foldl_max xs x
    have hsum := listSum_le (x :: xs) (listMax (x :: xs)) hmax
    have hb : listSum (x :: xs) / ((x :: xs).length : ℚ) ≤ listMax (x :: xs) := by
      rw [div_le_iff₀ hlen]
      linarith [hsum]
    simpa [groupStats] using hb

/-- C10: every group in the output of `aggregate_data` is built from a
nonempty set of contributing rows (`observed=True` grouping emits only
observed keys), so its statistics satisfy `value_count ≥ 1` and
`value_min ≤ value_mean ≤ value_max`. -/
theorem c10_aggregate_group_invariants (rows : List Row) (k : Key) (a : Agg)
    (h : lookupA (aggregate_data rows) k = some a) :
    1 ≤ a.value_count ∧ a.value_min ≤ a.value_mean ∧ a.value_mean ≤ a.value_max := by
  have hmem := lookupA_some_mem h
  unfold aggregate_data at hmem
  rw [List.mem_map] at hmem
  obtain ⟨k0, hk0, hkeq⟩ := hmem
  have hk0k : k0 = k := congrArg Prod.fst hkeq
  have ha : groupStats ((rows.filter (fun r => rowKey r = k0)).map Row.value) = a :=
    congrArg Prod.snd hkeq
  subst hk0k
  have hk : k0 ∈ rows.map rowKey := List.mem_dedup.mp hk0
  rw [List.mem_map] at hk
  obtain ⟨r, hr, hrk⟩ := hk
  have hrf : r ∈ rows.filter (fun r => rowKey r = k0) :=
    List.mem_filter.mpr ⟨hr, by simp [hrk]⟩
  have hne : (rows.filter (fun r => rowKey r = k0)).map Row.value ≠ [] := by
    intro hcontra
    rw [List.map_eq_nil_iff] at hcontra
    rw [hcontra] at hrf
    exact absurd hrf (List.not_mem_nil r)
  rw [← ha]
  exact groupStats_bounds _ hne

/-- Concrete instance of `c10_aggregate_group_invariants`: the two-row
group `(s, d, m)` with values `3` and `9` aggregates to count `2`,
mean `6`, min `3`, max `9`, sum of squares `90` and standard deviation
`sqrt 18`, and the invariant holds there. -/
theorem c10_witness :
    1 ≤ (⟨2, 6, 3, 9, 90, some 18⟩ : Agg).value_count ∧
      (⟨2, 6, 3, 9, 90, some 18⟩ : Agg).value_min ≤
        (⟨2, 6, 3, 9, 90, some 18⟩ : Agg).value_mean ∧
      (⟨2, 6, 3, 9, 90, some 18⟩ : Agg).value_mean ≤
        (⟨2, 6, 3, 9, 90, some 18⟩ : Agg).value_max :=
  c10_aggregate_group_invariants
    [⟨0, "s", "d", "m", 3, "u"⟩, ⟨1, "s", "d", "m", 9, "u"⟩] ("s", "d", "m")
    ⟨2, 6, 3, 9, 90, some 18⟩
    (by
      simp [aggregate_data, lookupA, rowKey, groupStats, listSum, listMin, listMax,
        List.dedup, List.pwFilter, min_def, max_def]
      norm_num)

/-- A key found in the left part of an appended frame is found, with the
same row, in the whole frame. -/
theorem lookupA_append_left {l1 : List (Key × Agg)} (l2 : List (Key × Agg))
    {k : Key} {a : Agg} (h : lookupA l1 k = some a) :
    lookupA (l1 ++ l2) k = some a := by
  induction l1 with
  | nil => simp [lookupA] at h
  | cons p t ih =>
    by_cases hp : p.1 = k
    · rw [lookupA, if_pos hp] at h
      rw [List.cons_append, lookupA, if_pos hp]
      exact h
    · rw [lookupA, if_neg hp] at h
      rw [List.cons_append, lookupA, if_neg hp]
      exact ih h

/-- Looking up a key that the left frame holds with row `x` in the mapped
section of `merge_aggregates` yields `x` combined with the right frame's
row for the key (or with the `fillna`-zeroed row when the right frame
lacks the key). -/
theorem lookupA_map_mergeRow (b : List (Key × Agg)) {t : List (Key × Agg)}
    {k : Key} {x : Agg} (ht : lookupA t k = some x) :
    lookupA (t.map (mergeRow b)) k =
      some (match lookupA b k with
            | some y => combine x y
            | none => combine x zeroAgg) := by
  induction t with
  | nil => simp [lookupA] at ht
  | cons p s ih =>
    by_cases hp : p.1 = k
    · rw [lookupA, if_pos hp] at ht
      obtain rfl : p.2 = x := by simpa using ht
      rw [List.map_cons, lookupA]
      rw [show (mergeRow b p).1 = p.1 from rfl, if_pos hp]
      rw [show (mergeRow b p).2 = (match lookupA b p.1 with
            | some y => combine p.2 y
            | none => combine p.2 zeroAgg) from rfl]
      rw [hp]
    · rw [lookupA, if_neg hp] at ht
      rw [List.map_cons, lookupA]
      rw [show (mergeRow b p).1 = p.1 from rfl, if_neg hp]
      exact ih ht

/-- For a key present in both frames, `merge_aggregates` holds exactly the
`combine` of the two rows. -/
theorem lookupA_merge_both {a b : List (Key × Agg)} {k : Key} {x y : Agg}
    (ha : lookupA a k = some x) (hb : lookupA b k = some y) :
    lookupA (merge_aggregates a b) k = some (combine x y) := by
  unfold merge_aggregates
  have h1 := lookupA_map_mergeRow b ha
  rw [hb] at h1
  exact lookupA_append_left _ h1

/-- C5 (amended): for a group present in both inputs, `merge_aggregates`
combines the rows as claimed for `count`, `mean` (with the explicit `0`
overwrite when the total count is `0`), `min`, `max` and
`sum_of_squares`; the standard deviation equals the claimed
`sqrt(max(sum_of_squares − count·mean², 0) / max(count − 1, 1))` whenever
the radicand `sum_of_squares − count·mean²` is nonnegative, but the code
has no `max(·, 0)` clamp on the radicand, so a negative radicand yields
`NaN` (`np.sqrt` of a negative) rather than the claimed `0`. -/
theorem c5_merge_formulas_for_groups_in_both (a b : List (Key × Agg)) (k : Key)
    (x y : Agg) (ha : lookupA a k = some x) (hb : lookupA b k = some y) :
    ∃ z, lookupA (merge_aggregates a b) k = some z ∧
      z.value_count = x.value_count + y.value_count ∧
      (z.value_count = 0 → z.value_mean = 0) ∧
      (z.value_count ≠ 0 →
        z.value_mean = ((x.value_count : ℚ) * x.value_mean +
          (y.value_count : ℚ) * y.value_mean) / (z.value_count : ℚ)) ∧
      z.value_min = min x.value_min y.value_min ∧
      z.value_max = max x.value_max y.value_max ∧
      z.value_sum_sq = x.value_sum_sq + y.value_sum_sq ∧
      (0 ≤ z.value_sum_sq - (z.value_count : ℚ) * z.value_mean ^ 2 →
        z.value_std =
          some (max (z.value_sum_sq - (z.value_count : ℚ) * z.value_mean ^ 2) 0 /
            ((max (z.value_count - 1) 1 : ℕ) : ℚ))) ∧
      (z.value_sum_sq - (z.value_count : ℚ) * z.value_mean ^ 2 < 0 →
        z.value_std = none) := by
  refine ⟨combine x y, lookupA_merge_both ha hb, rfl, ?_, ?_, rfl, rfl, rfl, ?_, ?_⟩
  · intro h0
    have h0' : x.value_count + y.value_count = 0 := h0
    simp [combine, h0']
  · intro h0
    have h0' : ¬x.value_count + y.value_count = 0 := h0
    simp [combine, h0']
  · intro hr
    have hd : (0 : ℚ) < ((max (x.value_count + y.value_count - 1) 1 : ℕ) : ℚ) := by
      have h1 : 0 < max (x.value_count + y.value_count - 1) 1 :=
        Nat.lt_of_lt_of_le Nat.zero_lt_one (le_max_right _ _)
      exact_mod_cast h1
    have hq : ¬((combine x y).value_sum_sq -
        ((combine x y).value_count : ℚ) * (combine x y).value_mean ^ 2) /
        ((max ((combine x y).value_count - 1) 1 : ℕ) : ℚ) < 0 := by
      push_neg
      exact div_nonneg hr (le_of_lt hd)
    have hmax : max ((combine x y).value_sum_sq -
        ((combine x y).value_count : ℚ) * (combine x y).value_mean ^ 2) 0 =
        (combine x y).value_sum_sq -
          ((combine x y).value_count : ℚ) * (combine x y).value_mean ^ 2 :=
      max_eq_left hr
    rw [hmax]
    exact if_neg hq
  · intro hr
    have hd : (0 : ℚ) < ((max (x.value_count + y.value_count - 1) 1 : ℕ) : ℚ) := by
      have h1 : 0 < max (x.value_count + y.value_count - 1) 1 :=
        Nat.lt_of_lt_of_le Nat.zero_lt_one (le_max_right _ _)
      exact_mod_cast h1
    have hq : ((combine x y).value_sum_sq -
        ((combine x y).value_count : ℚ) * (combine x y).value_mean ^ 2) /
        ((max ((combine x y).value_count - 1) 1 : ℕ) : ℚ) < 0 :=
      div_neg_of_neg_of_pos hr hd
    exact if_pos hq

/-- C5, claim as stated is false: merging two copies of the (inconsistent)
aggregate row `count 1, mean 10, sum_of_squares 0` for the same group
produces the radicand `0 − 2·10² = −200 < 0`, on which the code's
unclamped `np.sqrt` yields `NaN` (`none`) — while the claim's formula
`sqrt(max(sum_of_squares − count·mean², 0) / max(count − 1, 1))`
evaluates to `sqrt 0 = 0` (`some 0`). -/
theorem c5_counterexample_no_radicand_clamp :
    lookupA
      (merge_aggregates
        [(("g", "g", "g"), ⟨1, 10, 10, 10, 0, some 0⟩)]
        [(("g", "g", "g"), ⟨1, 10, 10, 10, 0, some 0⟩)])
      ("g", "g", "g") = some ⟨2, 10, 10, 10, 0, none⟩ ∧
    max ((0 : ℚ) + 0 - 2 * 10 ^ 2) 0 / ((max (2 - 1) 1 : ℕ) : ℚ) = 0 ∧
    (none : Option ℚ) ≠ some (0 : ℚ) := by
  refine ⟨?_, ?_, ?_⟩
  · simp [aggregate_data, merge_aggregates, mergeRow, lookupA, rowKey, groupStats,
      combine, zeroAgg, listSum, listMin, listMax, List.dedup, List.pwFilter,
      min_def, max_def]
  · norm_num
  · simp

/-- Concrete instance of `c5_merge_formulas_for_groups_in_both`: merging
the single-group frames `(count 2, mean 3, min 1, max 5, sum_sq 26,
std sqrt 8)` and `(count 1, mean 6, min 6, max 6, sum_sq 36, std NaN)` for
the key `(s, d, m)`. -/
theorem c5_witness :
    ∃ z, lookupA
        (merge_aggregates
          [(("s", "d", "m"), ⟨2, 3, 1, 5, 26, some 8⟩)]
          [(("s", "d", "m"), ⟨1, 6, 6, 6, 36, none⟩)])
        ("s", "d", "m") = some z ∧
      z.value_count = (⟨2, 3, 1, 5, 26, some 8⟩ : Agg).value_count +
        (⟨1, 6, 6, 6, 36, none⟩ : Agg).value_count ∧
      (z.value_count = 0 → z.value_mean = 0) ∧
      (z.value_count ≠ 0 →
        z.value_mean = (((⟨2, 3, 1, 5, 26, some 8⟩ : Agg).value_count : ℚ) *
            (⟨2, 3, 1, 5, 26, some 8⟩ : Agg).value_mean +
          ((⟨1, 6, 6, 6, 36, none⟩ : Agg).value_count : ℚ) *
            (⟨1, 6, 6, 6, 36, none⟩ : Agg).value_mean) / (z.value_count : ℚ)) ∧
      z.value_min = min (⟨2, 3, 1, 5, 26, some 8⟩ : Agg).value_min
        (⟨1, 6, 6, 6, 36, none⟩ : Agg).value_min ∧
      z.value_max = max (⟨2, 3, 1, 5, 26, some 8⟩ : Agg).value_max
        (⟨1, 6, 6, 6, 36, none⟩ : Agg).value_max ∧
      z.value_sum_sq = (⟨2, 3, 1, 5, 26, some 8⟩ : Agg).value_sum_sq +
        (⟨1, 6, 6, 6, 36, none⟩ : Agg).value_sum_sq ∧
      (0 ≤ z.value_sum_sq - (z.value_count : ℚ) * z.value_mean ^ 2 →
        z.value_std =
          some (max (z.value_sum_sq - (z.value_count : ℚ) * z.value_mean ^ 2) 0 /
            ((max (z.value_count - 1) 1 : ℕ) : ℚ))) ∧
      (z.value_sum_sq - (z.value_count : ℚ) * z.value_mean ^ 2 < 0 →
        z.value_std = none) :=
  c5_merge_formulas_for_groups_in_both
    [(("s", "d", "m"), ⟨2, 3, 1, 5, 26, some 8⟩)]
    [(("s", "d", "m"), ⟨1, 6, 6, 6, 36, none⟩)]
    ("s", "d", "m") ⟨2, 3, 1, 5, 26, some 8⟩ ⟨1, 6, 6, 6, 36, none⟩
    (by simp [lookupA]) (by simp [lookupA])

/-- Membership in one chunk's outlier extraction: a row survives the inner
join and the mask exactly when it is a row of the (filtered, normalized)
chunk, its group key has an aggregate row, and the mask holds there. -/
theorem mem_outlierScanChunk {agg : List (Key × Agg)} {rows : List Row} {r : Row} :
    r ∈ outlierScanChunk agg rows ↔
      r ∈ rows ∧ ∃ a, lookupA agg (rowKey r) = some a ∧
        outlierPred r.value a.value_mean a.value_std = true := by
  unfold outlierScanChunk
  rw [List.mem_filterMap]
  constructor
  · rintro ⟨x, hx, hfx⟩
    cases hl : lookupA agg (rowKey x) with
    | none => rw [hl] at hfx; simp at hfx
    | some a =>
        rw [hl] at hfx
        by_cases hp : outlierPred x.value a.value_mean a.value_std
        · simp only [hp, if_true] at hfx
          obtain rfl : x = r := by simpa using hfx
          exact ⟨hx, a, hl, hp⟩
        · simp [hp] at hfx
  · rintro ⟨hr, a, hl, hp⟩
    refine ⟨r, hr, ?_⟩
    rw [hl]
    simp [hp]

/-- The accumulator-generalized characterization of the outlier pass: a
row is collected by folding `scanStep` over a chunk sequence exactly when
it was already in the accumulator or some chunk's filtered, normalized
rows flag it against the final aggregate. -/
theorem scanFold_mem (agg : List (Key × Agg)) (conds : List FilterType)
    (chunks : List (List Row)) (acc out : List Row) (r : Row)
    (h : chunks.foldlM (scanStep agg conds) acc = Except.ok out) :
    r ∈ out ↔ r ∈ acc ∨ ∃ chunk ∈ chunks, ∃ flt,
      filter_data chunk conds = Except.ok flt ∧
        r ∈ outlierScanChunk agg (normalize_metric_names flt) := by
  induction chunks generalizing acc with
  | nil =>
    obtain rfl : acc = out := by
      simpa [List.foldlM, Pure.pure, Except.pure] using h
    simp
  | cons c cs ih =>
    rw [List.foldlM_cons] at h
    cases hf : filter_data c conds with
    | error e =>
        rw [scanStep, hf] at h
        simp [Bind.bind, Except.bind] at h
    | ok flt =>
        by_cases hemp : flt.isEmpty
        · have hstep : scanStep agg conds acc c = Except.ok acc := by
            rw [scanStep, hf]
            simp [hemp, Bind.bind, Except.bind, Pure.pure, Except.pure]
          rw [hstep] at h
          simp only [Bind.bind, Except.bind] at h
          rw [ih acc h]
          have hfltnil : flt = [] := by simpa [List.isEmpty_iff] using hemp
          have hcnone : ∀ flt2, filter_data c conds = Except.ok flt2 →
              r ∉ outlierScanChunk agg (normalize_metric_names flt2) := by
            intro flt2 hflt2
            rw [hf] at hflt2
            obtain rfl : flt = flt2 := by simpa using hflt2
            subst hfltnil
            simp [normalize_metric_names, outlierScanChunk]
          constructor
          · rintro (hacc | hcs)
            · exact Or.inl hacc
            · exact Or.inr (by
                obtain ⟨chunk, hchunk, flt2, h1, h2⟩ := hcs
                exact ⟨chunk, List.mem_cons_of_mem _ hchunk, flt2, h1, h2⟩)
          · rintro (hacc | ⟨chunk, hchunk, flt2, h1, h2⟩)
            · exact Or.inl hacc
            · rcases List.mem_cons.mp hchunk with rfl | hchunk
              · exact absurd h2 (hcnone flt2 h1)
              · exact Or.inr ⟨chunk, hchunk, flt2, h1, h2⟩
        · have hstep : scanStep agg conds acc c =
              Except.ok (acc ++ outlierScanChunk agg (normalize_metric_names flt)) := by
            rw [scanStep, hf]
            simp [hemp, Bind.bind, Except.bind, Pure.pure, Except.pure]
          rw [hstep] at h
          simp only [Bind.bind, Except.bind] at h
          rw [ih _ h]
          rw [List.mem_append]
          constructor
          · rintro ((hacc | hscan) | hcs)
            · exact Or.inl hacc
            · exact Or.inr ⟨c, List.mem_cons_self _ _, flt, hf, hscan⟩
            · exact Or.inr (by
                obtain ⟨chunk, hchunk, flt2, h1, h2⟩ := hcs
                exact ⟨chunk, List.mem_cons_of_mem _ hchunk, flt2, h1, h2⟩)
          · rintro (hacc | ⟨chunk, hchunk, flt2, h1, h2⟩)
            · exact Or.inl (Or.inl hacc)
            · rcases List.mem_cons.mp hchunk with rfl | hchunk
              · rw [hf] at h1
                obtain rfl : flt = flt2 := by simpa using h1
                exact Or.inl (Or.inr h2)
              · exact Or.inr ⟨chunk, hchunk, flt2, h1, h2⟩

/-- The float mask `abs(value − mean) > 3 * std` in its exact reading: for
a standard deviation represented by a nonnegative radicand `q` (the float
is `sqrt q`), the Boolean radicand comparison of `outlierPred` coincides
with the real-number comparison `|v − m| > 3 · sqrt q`. -/
theorem outlierPred_iff_real (v m q : ℚ) (hq : 0 ≤ q) :
    outlierPred v m (some q) = true ↔
      |(v : ℝ) - (m : ℝ)| > 3 * Real.sqrt (q : ℝ) := by
  have hstep : outlierPred v m (some q) = true ↔ (v - m) ^ 2 > 9 * q := by
    simp [outlierPred]
  rw [hstep]
  have hcast : ((v : ℚ) - m) ^ 2 > 9 * q ↔ ((v : ℝ) - (m : ℝ)) ^ 2 > 9 * (q : ℝ) := by
    constructor
    · intro h
      exact_mod_cast h
    · intro h
      exact_mod_cast h
  rw [hcast]
  have hqR : (0 : ℝ) ≤ (q : ℝ) := by exact_mod_cast hq
  have h9 : 3 * Real.sqrt (q : ℝ) = Real.sqrt (9 * (q : ℝ)) := by
    rw [show (9 : ℝ) * (q : ℝ) = 3 ^ 2 * (q : ℝ) by ring,
      Real.sqrt_mul (by positivity) ((q : ℝ)),
      Real.sqrt_sq (by norm_num : (0 : ℝ) ≤ 3)]
  rw [h9]
  rcases eq_or_lt_of_le (abs_nonneg ((v : ℝ) - (m : ℝ))) with hz | hpos
  · constructor
    · intro h
      have habs : (v : ℝ) - (m : ℝ) = 0 := by
        have := abs_eq_zero.mp hz.symm
        exact this
      rw [habs] at h
      nlinarith [h]
    · intro h
      exact absurd (lt_of_le_of_lt (Real.sqrt_nonneg _) h)
        (by rw [← hz]; exact lt_irrefl 0)
  · rw [gt_iff_lt, gt_iff_lt, Real.sqrt_lt' hpos, sq_abs]

/-- C6: a filtered, normalized row is emitted by the outlier pass iff its
group key has a row in the final aggregate table and its value deviates
from that group's mean by strictly more than three standard deviations
(in exact terms of the radicand representation: the aggregate holds a
non-`NaN` standard deviation `sqrt q` and `|value − mean| > 3 ·sqrt q`);
rows whose group key is absent from the final aggregate are silently
dropped by the inner join, and rows of groups with a `NaN` standard
deviation fail every float comparison, so neither is emitted and no error
is reported. -/
theorem c6_outlier_emission_iff (agg : List (Key × Agg)) (chunks : List (List Row))
    (conds : List FilterType) (out : List Row) (r : Row)
    (hwf : stdWF agg = true)
    (hout : outlierScan agg chunks conds = Except.ok out) :
    r ∈ out ↔
      (∃ chunk ∈ chunks, ∃ flt, filter_data chunk conds = Except.ok flt ∧
          r ∈ normalize_metric_names flt) ∧
      ∃ a, lookupA agg (rowKey r) = some a ∧
        ∃ q, a.value_std = some q ∧
          |(r.value : ℝ) - (a.value_mean : ℝ)| > 3 * Real.sqrt (q : ℝ) := by
  have hchar := scanFold_mem agg conds chunks [] out r hout
  simp only [List.not_mem_nil, false_or] at hchar
  rw [hchar]
  have hpred : (∃ a, lookupA agg (rowKey r) = some a ∧
      outlierPred r.value a.value_mean a.value_std = true) ↔
      (∃ a, lookupA agg (rowKey r) = some a ∧
        ∃ q, a.value_std = some q ∧
          |(r.value : ℝ) - (a.value_mean : ℝ)| > 3 * Real.sqrt (q : ℝ)) := by
    apply exists_congr
    intro a
    apply and_congr_right
    intro hla
    cases hstd : a.value_std with
    | none => simp [outlierPred, hstd]
    | some q =>
        have hq : 0 ≤ q := by
          have hmem := lookupA_some_mem hla
          have hall := (List.all_eq_true.mp hwf) (rowKey r, a) hmem
          simpa [hstd] using hall
        rw [outlierPred_iff_real r.value a.value_mean q hq]
        simp
  constructor
  · rintro ⟨chunk, hchunk, flt, hflt, hmem⟩
    rw [mem_outlierScanChunk] at hmem
    obtain ⟨hrow, hp⟩ := hmem
    exact ⟨⟨chunk, hchunk, flt, hflt, hrow⟩, hpred.mp hp⟩
  · rintro ⟨⟨chunk, hchunk, flt, hflt, hrow⟩, hp⟩
    exact ⟨chunk, hchunk, flt, hflt, mem_outlierScanChunk.mpr ⟨hrow, hpred.mpr hp⟩⟩

/-- Concrete instance of `c6_outlier_emission_iff`, the spec's §8
end-to-end example: the single group `(s, d, m)` with values
`[0, 0, 0, 0, 100]` aggregates to mean `20` and standard deviation
`sqrt 2000 ≈ 44.72`; no row is emitted (`out = []`), and in particular the
value-`100` row is not flagged, since
`|100 − 20| = 80 ≤ 3 · 44.72 ≈ 134.16`. -/
theorem c6_witness :
    ((⟨4, "s", "d", "m", 100, "u"⟩ : Row) ∈ ([] : List Row)) ↔
      ((∃ chunk ∈ [[(⟨0, "s", "d", "m", 0, "u"⟩ : Row), ⟨1, "s", "d", "m", 0, "u"⟩,
            ⟨2, "s", "d", "m", 0, "u"⟩, ⟨3, "s", "d", "m", 0, "u"⟩,
            ⟨4, "s", "d", "m", 100, "u"⟩]], ∃ flt,
          filter_data chunk [] = Except.ok flt ∧
            (⟨4, "s", "d", "m", 100, "u"⟩ : Row) ∈ normalize_metric_names flt) ∧
        ∃ a, lookupA
            (aggregate_data [⟨0, "s", "d", "m", 0, "u"⟩, ⟨1, "s", "d", "m", 0, "u"⟩,
              ⟨2, "s", "d", "m", 0, "u"⟩, ⟨3, "s", "d", "m", 0, "u"⟩,
              ⟨4, "s", "d", "m", 100, "u"⟩])
            (rowKey ⟨4, "s", "d", "m", 100, "u"⟩) = some a ∧
          ∃ q, a.value_std = some q ∧
            |((⟨4, "s", "d", "m", 100, "u"⟩ : Row).value : ℝ) - (a.value_mean : ℝ)| >
              3 * Real.sqrt (q : ℝ)) :=
  c6_outlier_emission_iff
    (aggregate_data [⟨0, "s", "d", "m", 0, "u"⟩, ⟨1, "s", "d", "m", 0, "u"⟩,
      ⟨2, "s", "d", "m", 0, "u"⟩, ⟨3, "s", "d", "m", 0, "u"⟩,
      ⟨4, "s", "d", "m", 100, "u"⟩])
    [[⟨0, "s", "d", "m", 0, "u"⟩, ⟨1, "s", "d", "m", 0, "u"⟩,
      ⟨2, "s", "d", "m", 0, "u"⟩, ⟨3, "s", "d", "m", 0, "u"⟩,
      ⟨4, "s", "d", "m", 100, "u"⟩]]
    [] [] ⟨4, "s", "d", "m", 100, "u"⟩
    (by
      norm_num [stdWF, aggregate_data, lookupA, rowKey, groupStats, listSum, listMin,
        listMax, List.dedup, List.pwFilter, min_def, max_def])
    (by
      have hagg : aggregate_data [(⟨0, "s", "d", "m", 0, "u"⟩ : Row),
          ⟨1, "s", "d", "m", 0, "u"⟩, ⟨2, "s", "d", "m", 0, "u"⟩,
          ⟨3, "s", "d", "m", 0, "u"⟩, ⟨4, "s", "d", "m", 100, "u"⟩] =
          [(("s", "d", "m"), ⟨5, 20, 0, 100, 10000, some 2000⟩)] := by
        simp [aggregate_data, rowKey, groupStats, listSum, listMin, listMax,
          List.dedup, List.pwFilter, min_def, max_def]
        norm_num
      have hnorm : normalize_metric_names [(⟨0, "s", "d", "m", 0, "u"⟩ : Row),
          ⟨1, "s", "d", "m", 0, "u"⟩, ⟨2, "s", "d", "m", 0, "u"⟩,
          ⟨3, "s", "d", "m", 0, "u"⟩, ⟨4, "s", "d", "m", 100, "u"⟩] =
          [⟨0, "s", "d", "m", 0, "u"⟩, ⟨1, "s", "d", "m", 0, "u"⟩,
            ⟨2, "s", "d", "m", 0, "u"⟩, ⟨3, "s", "d", "m", 0, "u"⟩,
            ⟨4, "s", "d", "m", 100, "u"⟩] := by
        simp [normalize_metric_names, mapMetric_eq]
      rw [hagg]
      norm_num [outlierScan, scanStep, outlierScanChunk, outlierPred, filter_data,
        hnorm, lookupA, rowKey, List.foldlM, Bind.bind,
        Pure.pure, Except.bind, Except.pure])
